import Mathlib

/-!
Verification of `src/fast_convolver.rs` (FastConvolver: block-wise FIR
convolution in time or frequency domain).

Modelling conventions:
* `f32` samples are modelled as elements of an arbitrary commutative ring `α`
  of exact values (the code only adds, subtracts and multiplies samples, so a
  commutative ring captures every operation it performs; the intended
  instantiation is the rationals, and concrete witnesses use the integers,
  where equality evaluates in the kernel).
* `rustfft` complex numbers are modelled as pairs `GaussQ α` (Gaussian
  values over `α`).  `FftPlanner::plan_fft_forward(n)` computes the
  unnormalized DFT with the primitive root `exp(-2*pi*I/n)`,
  `plan_fft_inverse(n)` the unnormalized inverse DFT (no `1/n` scaling; that
  matches `rustfft`, whose outputs must be normalized by the caller -- the
  Rust code never normalizes).  The root is exact (it lies in the Gaussian
  integers) for the sizes 1, 2 and 4, and all theorems below use only those
  block sizes, so the embedding is exact wherever it is used.
* A Rust panic (index out of bounds, `copy_from_slice` length mismatch,
  `chunks(0)`, arithmetic underflow on `usize`, or an explicit `panic!`) is
  modelled as `Except.error s` where `s` is the engine state at the moment of
  the panic; a normal return is `Except.ok`.
* `process(input, output)` returns the list of samples written into `output`
  (always the first `input.len()` positions); `flush(output)` returns the
  whole output buffer after the write, since `flush` leaves `output[L-1..]`
  untouched.
-/

set_option maxHeartbeats 1000000

instance {ε σ : Type} [DecidableEq ε] [DecidableEq σ] : DecidableEq (Except ε σ)
  | Except.error a, Except.error b =>
    if h : a = b then Decidable.isTrue (by rw [h])
    else Decidable.isFalse (fun hh => h (by cases hh; rfl))
  | Except.error _, Except.ok _ => Decidable.isFalse (fun hh => Except.noConfusion hh)
  | Except.ok _, Except.error _ => Decidable.isFalse (fun hh => Except.noConfusion hh)
  | Except.ok a, Except.ok b =>
    if h : a = b then Decidable.isTrue (by rw [h])
    else Decidable.isFalse (fun hh => h (by cases hh; rfl))

/-- Gaussian values over the sample ring: the exact carrier for the complex
numbers `rustfft` manipulates in the code's frequency-domain path. -/
structure GaussQ (α : Type) where
  re : α
  im : α
deriving DecidableEq

section GaussOps

variable {α : Type} [CommRing α]

instance : Zero (GaussQ α) := ⟨⟨0, 0⟩⟩

instance : One (GaussQ α) := ⟨⟨1, 0⟩⟩

instance : Add (GaussQ α) := ⟨fun a b => ⟨a.re + b.re, a.im + b.im⟩⟩

instance : Mul (GaussQ α) :=
  ⟨fun a b => ⟨a.re * b.re - a.im * b.im, a.re * b.im + a.im * b.re⟩⟩

/-- Complex conjugate. -/
def cconj (z : GaussQ α) : GaussQ α := ⟨z.re, -z.im⟩

/-- Natural power (used for DFT twiddle factors). -/
def cpow (z : GaussQ α) : ℕ → GaussQ α
  | 0 => 1
  | n + 1 => cpow z n * z

/-- Unnormalized discrete Fourier transform with twiddle base `w`:
`X[k] = sum over n of x[n] * w^(n*k)`.  This is what `rustfft`'s forward plan
computes when `w = exp(-2*pi*I/len)`, and what the inverse plan computes when
`w = exp(2*pi*I/len)` (rustfft never applies the `1/len` normalization). -/
def dftWith (w : GaussQ α) (x : List (GaussQ α)) : List (GaussQ α) :=
  (List.range x.length).map (fun k =>
    ((List.range x.length).map (fun n => x.getD n 0 * cpow w (n * k))).sum)

/-- The primitive root `exp(-2*pi*I/n)` used by `rustfft`'s forward FFT of
size `n`.  It is exact (a Gaussian integer) only for `n` in {1, 2, 4}; every
theorem below instantiates only those sizes, so the model is exact wherever
it is used. -/
def fftRoot : ℕ → GaussQ α
  | 1 => ⟨1, 0⟩
  | 2 => ⟨-1, 0⟩
  | 4 => ⟨0, -1⟩
  | _ => ⟨0, 0⟩

/-- Model of `FftPlanner::plan_fft_forward(n)` followed by `process`. -/
def fftProcess (n : ℕ) (x : List (GaussQ α)) : List (GaussQ α) :=
  dftWith (fftRoot n) x

/-- Model of `FftPlanner::plan_fft_inverse(n)` followed by `process`
(unnormalized, as in rustfft). -/
def ifftProcess (n : ℕ) (x : List (GaussQ α)) : List (GaussQ α) :=
  dftWith (cconj (fftRoot n)) x

end GaussOps

/-- Model of Rust's `slice::chunks(k)`: consecutive chunks of size `k`, the
last one possibly shorter.  (`chunks(0)` panics in Rust; callers below guard
`k = 0` before using this.)  The fuel argument is `l.length`. -/
def chunksOfGo {β : Type} (k : ℕ) : ℕ → List β → List (List β)
  | 0, _ => []
  | _, [] => []
  | fuel + 1, l => l.take k :: chunksOfGo k fuel (l.drop k)

/-- Consecutive chunks of size `k` (Rust `slice::chunks`). -/
def chunksOf {β : Type} (k : ℕ) (l : List β) : List (List β) :=
  chunksOfGo k l.length l

/-- The `ConvolutionMode` enum of the Rust code. -/
inductive ConvolutionMode where
  | TimeDomain : ConvolutionMode
  | FrequencyDomain : ℕ → ConvolutionMode
deriving DecidableEq

/-- The `FastConvolver` struct, field for field. -/
structure FastConvolver (α : Type) where
  impulse_response : List α
  mode : ConvolutionMode
  buffer : List α
  ir_blocks : List (List (GaussQ α))
  overlap_buffer : List α
  block_size : ℕ
deriving DecidableEq

namespace FastConvolver

variable {α : Type} [CommRing α]

/-- Model of `FastConvolver::partition_and_transform_ir`: split the impulse
response into `block_size` chunks, zero-pad each chunk to `block_size`, and
apply the forward FFT to each. -/
def partition_and_transform_ir (ir : List α) (block_size : ℕ) :
    List (List (GaussQ α)) :=
  (chunksOf block_size ir).map (fun chunk =>
    fftProcess block_size ((chunk.map (fun r => (⟨r, 0⟩ : GaussQ α))) ++
      List.replicate (block_size - chunk.length) 0))

/-- Model of `FastConvolver::new`.  The Rust `match` binds `block_size` only in
the `FrequencyDomain` arm and executes
`panic!("Block size must be specified for FrequencyDomain mode")` for every
other mode -- including `TimeDomain` -- so construction in time-domain mode
always panics (`none`).  With `block_size = 0`, `ir.chunks(0)` inside
`partition_and_transform_ir` panics (`none`).  Otherwise the struct is built
with `buffer = vec![0.0; block_size]` and
`overlap_buffer = vec![0.0; 2*block_size]`. -/
def new (impulse_response : List α) (mode : ConvolutionMode) :
    Option (FastConvolver α) :=
  match mode with
  | ConvolutionMode.TimeDomain => none
  | ConvolutionMode.FrequencyDomain block_size =>
    if block_size = 0 then none
    else some
      { impulse_response := impulse_response
        mode := mode
        buffer := List.replicate block_size 0
        ir_blocks := partition_and_transform_ir impulse_response block_size
        overlap_buffer := List.replicate (2 * block_size) 0
        block_size := block_size }

/-- Model of `FastConvolver::reset`: `self.buffer.clear()` -- `Vec::clear`
sets the length to zero (it does not refill with zeros). -/
def reset (c : FastConvolver α) : FastConvolver α :=
  { c with buffer := [] }

/-- One step of the inner `j` loop of `time_domain_process`'s convolution:
the accumulator carries the partial sum and a flag recording whether the
`if i == j { break; }` fired.  `continue` corresponds to returning the
accumulator unchanged when `i >= input.len() + j`. -/
def convStep (ir x : List α) (i : ℕ) (p : α × Bool) (j : ℕ) : α × Bool :=
  if p.2 then p
  else if x.length + j ≤ i then p
  else (p.1 + x.getD (i - j) 0 * ir.getD j 0, i == j)

/-- The value the nested loops of `time_domain_process` leave in
`full_output[i]`: iterate `j` over `0..ir.len()` with the `continue`/`break`
logic of the source.  (For a nonempty input this never reads `x` at a
wrapped-around index; `time_domain_process` guards the empty-input panic.) -/
def convEntry (ir x : List α) (i : ℕ) : α :=
  ((List.range ir.length).foldl (convStep ir x i) (0, false)).1

/-- The mathematical causal convolution sample:
`sum over j < L with j <= i of x[i-j] * ir[j]` (indices beyond `x` give 0).
Used to state what the code computes; `convEntry` is proved equal to it. -/
def convAt (ir x : List α) (i : ℕ) : α :=
  ((List.range ir.length).map
    (fun j => if j ≤ i then x.getD (i - j) 0 * ir.getD j 0 else 0)).sum

/-- Model of `FastConvolver::time_domain_process` on state `c`, input `x` and
an output slice of length `outLen`.  Panics (all occurring before
`self.buffer` is mutated, hence `.error c`):
* `L = 0`: the overlap-add loop `0..L-1` underflows to `0..usize::MAX` and
  indexes out of bounds (and for empty input the `vec![0.0; N+L-1]` length
  underflows);
* empty input with `L >= 2`: `input[i - j]` underflows for `j = i + 1`;
* `buffer.len() < L - 1`: `self.buffer[i]` in the overlap-add loop is out of
  bounds;
* `output.len() < input.len()`: `output[i]` is out of bounds.
Otherwise: `full_output` is the convolution, the first `L-1` entries get the
carryover added, the first `N` entries are written to `output`, and
`buffer[i] = full_output[N+i]` for `i < L-1` (entries `buffer[L-1..]` are left
unchanged). -/
def time_domain_process (c : FastConvolver α) (x : List α) (outLen : ℕ) :
    Except (FastConvolver α) (List α × FastConvolver α) :=
  if c.impulse_response.length = 0 then Except.error c
  else if x.length = 0 ∧ 2 ≤ c.impulse_response.length then Except.error c
  else if c.buffer.length < c.impulse_response.length - 1 then Except.error c
  else if outLen < x.length then Except.error c
  else
    let L := c.impulse_response.length
    let full := (List.range (x.length + L - 1)).map (convEntry c.impulse_response x)
    let full2 := (List.range (x.length + L - 1)).map (fun i =>
      if i < L - 1 then c.buffer.getD i 0 + full.getD i 0 else full.getD i 0)
    let out := full2.take x.length
    let b2 := ((List.range (L - 1)).map (fun i => full2.getD (x.length + i) 0)) ++
      c.buffer.drop (L - 1)
    Except.ok (out, { c with buffer := b2 })

/-- One iteration of the chunk loop of `frequency_domain_process`: zero-pad the
chunk to `block_size`, forward-FFT it, multiply pointwise with
`ir_blocks.get(i).unwrap_or(zeros)`, inverse-FFT, and add the real parts into
the overlap buffer at `(i*block_size + j) % overlap.len()`. -/
def accumChunk (n : ℕ) (irb : List (List (GaussQ α))) (i : ℕ) (chunk : List α)
    (ov : List α) : List α :=
  let input_block := (chunk.map (fun r => (⟨r, 0⟩ : GaussQ α))) ++
    List.replicate (n - chunk.length) 0
  let fx := fftProcess n input_block
  let irv := irb.getD i (List.replicate n 0)
  let output_block := (List.range n).map (fun j => fx.getD j 0 * irv.getD j 0)
  let y := ifftProcess n output_block
  (List.range n).foldl
    (fun ov2 j =>
      ov2.set ((i * n + j) % ov.length)
        (ov2.getD ((i * n + j) % ov.length) 0 + (y.getD j 0).re))
    ov

/-- The overlap buffer after `frequency_domain_process` has cleared it
(`fill(0.0)`) and run the whole chunk loop on input `x`. -/
def freqOverlapAfter (c : FastConvolver α) (x : List α) : List α :=
  ((chunksOf c.block_size x).enum).foldl
    (fun ov p => accumChunk c.block_size c.ir_blocks p.1 p.2 ov)
    (List.replicate c.overlap_buffer.length 0)

/-- Model of `FastConvolver::frequency_domain_process`.  The overlap buffer is
cleared and accumulated into (state mutation) before the final
`output.copy_from_slice(&self.overlap_buffer[..input.len()])`, which panics
when `input.len() > overlap.len()` (slice out of range) or when
`output.len() != input.len()` (`copy_from_slice` length mismatch); those
panics therefore carry the already-mutated state.  `chunks(0)` and the
`% 0` on an empty overlap buffer panic earlier. -/
def frequency_domain_process (c : FastConvolver α) (x : List α) (outLen : ℕ) :
    Except (FastConvolver α) (List α × FastConvolver α) :=
  if c.block_size = 0 then
    Except.error { c with overlap_buffer := List.replicate c.overlap_buffer.length 0 }
  else if c.overlap_buffer.length = 0 ∧ x.length ≠ 0 then
    Except.error { c with overlap_buffer := List.replicate c.overlap_buffer.length 0 }
  else
    let ov := freqOverlapAfter c x
    let c2 := { c with overlap_buffer := ov }
    if c.overlap_buffer.length < x.length then Except.error c2
    else if outLen ≠ x.length then Except.error c2
    else Except.ok (ov.take x.length, c2)

/-- Model of `FastConvolver::process`: dispatch on the stored mode. -/
def process (c : FastConvolver α) (x : List α) (outLen : ℕ) :
    Except (FastConvolver α) (List α × FastConvolver α) :=
  match c.mode with
  | ConvolutionMode.TimeDomain => time_domain_process c x outLen
  | ConvolutionMode.FrequencyDomain _ => frequency_domain_process c x outLen

/-- Model of `FastConvolver::flush`: `output[i] = self.buffer[i]` for
`i in 0..L-1`.  No length is checked: with `L = 0` the range underflows to
`0..usize::MAX` and a read goes out of bounds; an output shorter than `L-1`,
or a buffer shorter than `L-1` (e.g. after `reset`), panics on indexing.
On success the whole output buffer is returned: its first `L-1` entries are
the carryover, the rest keeps its previous content.  `flush` never writes any
field of `self`, so the returned state is `c` itself. -/
def flush (c : FastConvolver α) (out : List α) :
    Except (FastConvolver α) (List α × FastConvolver α) :=
  if c.impulse_response.length = 0 then Except.error c
  else if out.length < c.impulse_response.length - 1 ∨
      c.buffer.length < c.impulse_response.length - 1 then Except.error c
  else Except.ok ((c.buffer.take (c.impulse_response.length - 1)) ++
    out.drop (c.impulse_response.length - 1), c)

/-- Feed a list of input blocks through `process` in order (each with an
output slice of matching length, as the callers in the tests do), threading
the state and concatenating the written outputs. -/
def runBlocks : FastConvolver α → List (List α) →
    Except (FastConvolver α) (List α × FastConvolver α)
  | c, [] => Except.ok ([], c)
  | c, x :: rest =>
    match process c x x.length with
    | Except.error e => Except.error e
    | Except.ok (o, c1) =>
      match runBlocks c1 rest with
      | Except.error e => Except.error e
      | Except.ok (os, c2) => Except.ok (o ++ os, c2)

/-- Append a final `flush` (into output buffer `outF`) to a processing result
and concatenate everything that was emitted; `none` models a panic anywhere
in the pipeline. -/
def thenFlush (r : Except (FastConvolver α) (List α × FastConvolver α))
    (outF : List α) : Option (List α) :=
  match r with
  | Except.error _ => none
  | Except.ok (o, c) =>
    match flush c outF with
    | Except.error _ => none
    | Except.ok (t, _) => some (o ++ t)

/-- The output written by a successful call, `none` on panic. -/
def okOut (r : Except (FastConvolver α) (List α × FastConvolver α)) :
    Option (List α) :=
  match r with
  | Except.ok (o, _) => some o
  | Except.error _ => none

/-- Whether a call completed without panicking. -/
def okB (r : Except (FastConvolver α) (List α × FastConvolver α)) : Bool :=
  match r with
  | Except.ok _ => true
  | Except.error _ => false

/-- The per-call output positions `process` must produce according to the
spec's streaming-convolution contract, relative to the carryover `b` held on
entry: sample `i` of the call is the fresh convolution term plus the stored
tail. -/
def outSpec (ir b x : List α) : List α :=
  (List.range x.length).map (fun i =>
    convAt ir x i + (if i < ir.length - 1 then b.getD i 0 else 0))

/-- The carryover the code stores after a `time_domain_process` call: the tail
of the convolution past the current block, plus whatever part of the old
carryover extends past the block. -/
def bufSpec (ir b x : List α) : List α :=
  ((List.range (ir.length - 1)).map (fun i =>
    convAt ir x (x.length + i) +
      (if x.length + i < ir.length - 1 then b.getD (x.length + i) 0 else 0))) ++
  b.drop (ir.length - 1)

end FastConvolver

open FastConvolver

/-- The engine `new [1,1] (FrequencyDomain 1)` actually builds (proved below):
size-1 FFT is the identity, so each impulse sample becomes its own spectral
block. -/
def fdEngine1 : FastConvolver ℤ :=
  { impulse_response := [1, 1]
    mode := ConvolutionMode.FrequencyDomain 1
    buffer := [0]
    ir_blocks := [[⟨1, 0⟩], [⟨1, 0⟩]]
    overlap_buffer := [0, 0]
    block_size := 1 }

/-- The state `frequency_domain_process` has installed when it reaches the
failing `copy_from_slice` in the C8 counterexample: the overlap accumulator
already holds the contribution of input `[1]`. -/
def fdEngine1Mut : FastConvolver ℤ :=
  { impulse_response := [1, 1]
    mode := ConvolutionMode.FrequencyDomain 1
    buffer := [0]
    ir_blocks := [[⟨1, 0⟩], [⟨1, 0⟩]]
    overlap_buffer := [1, 0]
    block_size := 1 }

/-- The engine `new [1,2] (FrequencyDomain 1)` builds; its two distinct
impulse samples expose the chunk-index/partition-index pairing of the
frequency-domain loop. -/
def fdEngine2 : FastConvolver ℤ :=
  { impulse_response := [1, 2]
    mode := ConvolutionMode.FrequencyDomain 1
    buffer := [0]
    ir_blocks := [[⟨1, 0⟩], [⟨2, 0⟩]]
    overlap_buffer := [0, 0]
    block_size := 1 }

/-- The engine `new [1,1,1,1] (FrequencyDomain 4)` builds: one spectral block,
the size-4 DFT of `[1,1,1,1]`.  This is the configuration of the repository's
own test `test_frequency_domain_convolver_basic`. -/
def fdEngine4 : FastConvolver ℤ :=
  { impulse_response := [1, 1, 1, 1]
    mode := ConvolutionMode.FrequencyDomain 4
    buffer := [0, 0, 0, 0]
    ir_blocks := [[⟨4, 0⟩, ⟨0, 0⟩, ⟨0, 0⟩, ⟨0, 0⟩]]
    overlap_buffer := [0, 0, 0, 0, 0, 0, 0, 0]
    block_size := 4 }

/-- Modelled from the spec: the time-domain engine state the spec prescribes
after construction with impulse response `[1,1,1,1]` -- carryover store
zero-initialized to length `L - 1 = 3`.  `FastConvolver::new` itself cannot
produce any time-domain state because its `match` panics on `TimeDomain`
(see the C2/C4 theorems); the frequency-domain fields are unused in this
mode and left empty. -/
def tdEngine : FastConvolver ℤ :=
  { impulse_response := [1, 1, 1, 1]
    mode := ConvolutionMode.TimeDomain
    buffer := [0, 0, 0]
    ir_blocks := []
    overlap_buffer := []
    block_size := 0 }

/-! ### Helper lemmas about lists and the convolution loop -/

section Lemmas

variable {α : Type} [CommRing α]

theorem getD_map_range {β : Type} (f : ℕ → β) (d : β) {n m : ℕ} (h : n < m) :
    ((List.range m).map f).getD n d = f n := by
  simp [List.getD_eq_getElem?_getD, List.getElem?_map, List.getElem?_range h]

theorem map_range_sum_add (l : List ℕ) (f g : ℕ → α) :
    (l.map (fun j => f j + g j)).sum = (l.map f).sum + (l.map g).sum := by
  induction l with
  | nil => simp
  | cons a t ih => simp only [List.map_cons, List.sum_cons, ih]; ring

theorem foldl_convStep_stop (ir x : List α) (i : ℕ) :
    ∀ (l : List ℕ) (a : α), l.foldl (FastConvolver.convStep ir x i) (a, true) = (a, true) := by
  intro l
  induction l with
  | nil => intro a; rfl
  | cons j t ih =>
    intro a
    simp only [List.foldl_cons, FastConvolver.convStep]
    exact ih a

theorem foldl_convStep_no_break (ir x : List α) (i : ℕ) :
    ∀ (l : List ℕ), (∀ j ∈ l, j ≠ i) → ∀ (a : α),
      l.foldl (FastConvolver.convStep ir x i) (a, false) =
        (a + (l.map (fun j =>
          if x.length + j ≤ i then 0 else x.getD (i - j) 0 * ir.getD j 0)).sum, false) := by
  intro l
  induction l with
  | nil => intro _ a; simp
  | cons j t ih =>
    intro hl a
    have hji : (i == j) = false := by
      have : j ≠ i := hl j (List.mem_cons_self j t)
      simp [Ne.symm this]
    have ht : ∀ b ∈ t, b ≠ i := fun b hb => hl b (List.mem_cons_of_mem j hb)
    by_cases hskip : x.length + j ≤ i
    · simp only [List.foldl_cons, FastConvolver.convStep, hskip, if_true, if_false,
        Bool.false_eq_true, List.map_cons, List.sum_cons, ite_true]
      rw [ih ht a]
      simp [hskip]
    · simp only [List.foldl_cons, FastConvolver.convStep, hskip, Bool.false_eq_true,
        if_false, ite_false, hji, List.map_cons, List.sum_cons]
      rw [ih ht]
      simp [hskip, add_assoc]

end Lemmas

section ConvLemmas

variable {α : Type} [CommRing α]

theorem convEntry_eq_convAt (ir x : List α) (i : ℕ) (hx : x ≠ []) :
    FastConvolver.convEntry ir x i = FastConvolver.convAt ir x i := by
  have hxlen : 0 < x.length := List.length_pos.mpr hx
  have hterm : ∀ j : ℕ, j ≤ i →
      (if x.length + j ≤ i then 0 else x.getD (i - j) 0 * ir.getD j 0) =
        x.getD (i - j) 0 * ir.getD j 0 := by
    intro j _
    by_cases hskip : x.length + j ≤ i
    · rw [if_pos hskip, List.getD_eq_default _ _ (by omega), zero_mul]
    · rw [if_neg hskip]
  by_cases hiL : i < ir.length
  · -- the break at j = i fires; split the range at i + 1
    have hsplit : ir.length = (i + 1) + (ir.length - (i + 1)) := by omega
    rw [FastConvolver.convEntry, FastConvolver.convAt, hsplit, List.range_add,
      List.foldl_append, List.range_succ, List.foldl_append]
    rw [foldl_convStep_no_break ir x i (List.range i)
      (fun j hj => by have := List.mem_range.mp hj; omega) 0]
    have hstep : (FastConvolver.convStep ir x i)
        (0 + ((List.range i).map (fun j =>
          if x.length + j ≤ i then 0 else x.getD (i - j) 0 * ir.getD j 0)).sum, false) i =
        (0 + ((List.range i).map (fun j =>
          if x.length + j ≤ i then 0 else x.getD (i - j) 0 * ir.getD j 0)).sum +
          x.getD (i - i) 0 * ir.getD i 0, true) := by
      rw [FastConvolver.convStep]
      simp only [if_neg (by omega : ¬ (x.length + i ≤ i))]
      simp
    simp only [List.foldl_cons, List.foldl_nil, hstep, foldl_convStep_stop]
    rw [List.map_append, List.map_append, List.sum_append, List.sum_append,
      List.map_map, List.map_cons, List.map_nil, List.sum_cons, List.sum_nil]
    have hzero : ((List.range (ir.length - (i + 1))).map
        ((fun j => if j ≤ i then x.getD (i - j) 0 * ir.getD j 0 else 0) ∘
          (fun b => i + 1 + b))).sum = 0 := by
      apply List.sum_eq_zero
      intro v hv
      rcases List.mem_map.mp hv with ⟨m, _, hm⟩
      rw [← hm]
      simp only [Function.comp]
      rw [if_neg (by omega)]
    rw [hzero]
    have hmain : ((List.range i).map (fun j =>
        if x.length + j ≤ i then 0 else x.getD (i - j) 0 * ir.getD j 0)).sum =
        ((List.range i).map (fun j =>
          if j ≤ i then x.getD (i - j) 0 * ir.getD j 0 else 0)).sum := by
      apply congrArg List.sum
      apply List.map_congr_left
      intro j hj
      have hji : j < i := List.mem_range.mp hj
      rw [hterm j (by omega), if_pos (by omega)]
    rw [hmain, if_pos (le_refl i)]
    ring
  · -- i is at or past the last tap: the break never fires
    rw [FastConvolver.convEntry, FastConvolver.convAt]
    rw [foldl_convStep_no_break ir x i (List.range ir.length)
      (fun j hj => by have := List.mem_range.mp hj; omega) 0]
    have hmain : ((List.range ir.length).map (fun j =>
        if x.length + j ≤ i then 0 else x.getD (i - j) 0 * ir.getD j 0)).sum =
        ((List.range ir.length).map (fun j =>
          if j ≤ i then x.getD (i - j) 0 * ir.getD j 0 else 0)).sum := by
      apply congrArg List.sum
      apply List.map_congr_left
      intro j hj
      have hji : j < ir.length := List.mem_range.mp hj
      rw [hterm j (by omega), if_pos (by omega)]
    rw [hmain]
    ring

end ConvLemmas

section ConvAtLemmas

variable {α : Type} [CommRing α]

theorem convAt_eq_zero_of_ge (ir x : List α) (i : ℕ)
    (h : x.length + ir.length ≤ i + 1) : FastConvolver.convAt ir x i = 0 := by
  rw [FastConvolver.convAt]
  apply List.sum_eq_zero
  intro v hv
  rcases List.mem_map.mp hv with ⟨j, hj, hjv⟩
  have hjL : j < ir.length := List.mem_range.mp hj
  rw [← hjv]
  by_cases hji : j ≤ i
  · rw [if_pos hji, List.getD_eq_default _ _ (by omega), zero_mul]
  · rw [if_neg hji]

theorem convAt_first_block (ir x1 x2 : List α) (k : ℕ) (h : k < x1.length) :
    FastConvolver.convAt ir (x1 ++ x2) k = FastConvolver.convAt ir x1 k := by
  rw [FastConvolver.convAt, FastConvolver.convAt]
  apply congrArg List.sum
  apply List.map_congr_left
  intro j hj
  by_cases hji : j ≤ k
  · rw [if_pos hji, if_pos hji, List.getD_append _ _ _ _ (by omega)]
  · rw [if_neg hji, if_neg hji]

theorem convAt_append (ir h x : List α) (k : ℕ) :
    FastConvolver.convAt ir (h ++ x) (h.length + k) =
      FastConvolver.convAt ir h (h.length + k) + FastConvolver.convAt ir x k := by
  rw [FastConvolver.convAt, FastConvolver.convAt, FastConvolver.convAt,
    ← map_range_sum_add]
  apply congrArg List.sum
  apply List.map_congr_left
  intro j _
  by_cases h1 : j ≤ k
  · rw [if_pos (by omega), if_pos (by omega), if_pos h1]
    have hidx : h.length + k - j = h.length + (k - j) := by omega
    rw [hidx, List.getD_append_right _ _ _ _ (by omega),
      List.getD_eq_default h _ (by omega), Nat.add_sub_cancel_left, zero_mul, zero_add]
  · by_cases h2 : j ≤ h.length + k
    · rw [if_pos h2, if_pos h2, if_neg h1,
        List.getD_append _ _ _ _ (by omega), add_zero]
    · rw [if_neg h2, if_neg h2, if_neg h1, add_zero]

end ConvAtLemmas

section TdpSpec

variable {α : Type} [CommRing α]

theorem tdp_ok (c : FastConvolver α) (x : List α) (outLen : ℕ)
    (hL : c.impulse_response.length ≠ 0) (hx : x ≠ [])
    (hb : c.impulse_response.length - 1 ≤ c.buffer.length)
    (ho : x.length ≤ outLen) :
    FastConvolver.time_domain_process c x outLen =
      Except.ok (FastConvolver.outSpec c.impulse_response c.buffer x,
        { c with buffer := FastConvolver.bufSpec c.impulse_response c.buffer x }) := by
  have hxlen : 0 < x.length := List.length_pos.mpr hx
  have hLpos : 0 < c.impulse_response.length := by omega
  rw [FastConvolver.time_domain_process]
  rw [if_neg hL, if_neg (by omega : ¬(x.length = 0 ∧ 2 ≤ c.impulse_response.length)),
    if_neg (by omega : ¬(c.buffer.length < c.impulse_response.length - 1)),
    if_neg (by omega : ¬(outLen < x.length))]
  simp only []
  have hfull2 : ∀ i, i < x.length + c.impulse_response.length - 1 →
      ((List.range (x.length + c.impulse_response.length - 1)).map (fun i =>
        if i < c.impulse_response.length - 1 then
          c.buffer.getD i 0 +
            ((List.range (x.length + c.impulse_response.length - 1)).map
              (FastConvolver.convEntry c.impulse_response x)).getD i 0
        else
          ((List.range (x.length + c.impulse_response.length - 1)).map
            (FastConvolver.convEntry c.impulse_response x)).getD i 0)).getD i 0 =
      FastConvolver.convAt c.impulse_response x i +
        (if i < c.impulse_response.length - 1 then c.buffer.getD i 0 else 0) := by
    intro i hi
    rw [getD_map_range _ _ hi]
    by_cases hic : i < c.impulse_response.length - 1
    · rw [if_pos hic, if_pos hic, getD_map_range _ _ hi,
        convEntry_eq_convAt _ _ _ hx, add_comm]
    · rw [if_neg hic, if_neg hic, getD_map_range _ _ hi,
        convEntry_eq_convAt _ _ _ hx, add_zero]
  congr 1
  refine Prod.ext ?_ ?_
  · -- the output slice
    show ((List.range (x.length + c.impulse_response.length - 1)).map _).take x.length =
      FastConvolver.outSpec c.impulse_response c.buffer x
    rw [← List.map_take, List.take_range, Nat.min_eq_left (by omega),
      FastConvolver.outSpec]
    apply List.map_congr_left
    intro i hi
    have hiN : i < x.length := List.mem_range.mp hi
    have := hfull2 i (by omega)
    rw [getD_map_range _ _ (by omega)] at this
    by_cases hic : i < c.impulse_response.length - 1
    · rw [if_pos hic, getD_map_range _ _ (by omega),
        convEntry_eq_convAt _ _ _ hx, add_comm, if_pos hic]
    · rw [if_neg hic, getD_map_range _ _ (by omega),
        convEntry_eq_convAt _ _ _ hx, if_neg hic, add_zero]
  · -- the updated carryover
    show ({ c with buffer := _ } : FastConvolver α) = { c with buffer := _ }
    congr 1
    rw [FastConvolver.bufSpec]
    congr 1
    apply List.map_congr_left
    intro i hi
    have hiL : i < c.impulse_response.length - 1 := List.mem_range.mp hi
    rw [hfull2 (x.length + i) (by omega)]
end TdpSpec

section MergeLemmas

variable {α : Type} [CommRing α]

theorem bufSpec_getD (ir b x : List α) (k : ℕ) (hk : k < ir.length - 1) :
    (FastConvolver.bufSpec ir b x).getD k 0 =
      FastConvolver.convAt ir x (x.length + k) +
        (if x.length + k < ir.length - 1 then b.getD (x.length + k) 0 else 0) := by
  rw [FastConvolver.bufSpec, List.getD_append _ _ _ _ (by simp; omega),
    getD_map_range _ _ hk]

theorem bufSpec_length_ge (ir b x : List α) :
    ir.length - 1 ≤ (FastConvolver.bufSpec ir b x).length := by
  rw [FastConvolver.bufSpec]
  simp

theorem bufSpec_length (ir b x : List α) (hb : ir.length - 1 ≤ b.length) :
    (FastConvolver.bufSpec ir b x).length = b.length := by
  rw [FastConvolver.bufSpec]
  simp
  omega

theorem outSpec_append (ir b x1 x2 : List α) :
    FastConvolver.outSpec ir b (x1 ++ x2) =
      FastConvolver.outSpec ir b x1 ++
        FastConvolver.outSpec ir (FastConvolver.bufSpec ir b x1) x2 := by
  rw [FastConvolver.outSpec, FastConvolver.outSpec, FastConvolver.outSpec,
    List.length_append, List.range_add, List.map_append, List.map_map]
  congr 1
  · apply List.map_congr_left
    intro i hi
    have hiN : i < x1.length := List.mem_range.mp hi
    rw [convAt_first_block _ _ _ _ hiN]
  · apply List.map_congr_left
    intro k hk
    have hkN : k < x2.length := List.mem_range.mp hk
    simp only [Function.comp]
    rw [convAt_append]
    by_cases hkL : k < ir.length - 1
    · rw [if_pos hkL, bufSpec_getD _ _ _ _ hkL]
      ring
    · rw [if_neg hkL,
        if_neg (by omega : ¬ x1.length + k < ir.length - 1),
        convAt_eq_zero_of_ge ir x1 (x1.length + k) (by omega)]
      ring

theorem bufSpec_append (ir b x1 x2 : List α) :
    FastConvolver.bufSpec ir b (x1 ++ x2) =
      FastConvolver.bufSpec ir (FastConvolver.bufSpec ir b x1) x2 := by
  rw [FastConvolver.bufSpec, FastConvolver.bufSpec]
  have hlen : ((List.range (ir.length - 1)).map (fun i =>
      FastConvolver.convAt ir x1 (x1.length + i) +
        (if x1.length + i < ir.length - 1 then b.getD (x1.length + i) 0 else 0))).length =
      ir.length - 1 := by simp
  have hdrop : (FastConvolver.bufSpec ir b x1).drop (ir.length - 1) =
      b.drop (ir.length - 1) := by
    rw [FastConvolver.bufSpec]
    exact List.drop_left' hlen
  rw [hdrop]
  congr 1
  apply List.map_congr_left
  intro i hi
  have hiL : i < ir.length - 1 := List.mem_range.mp hi
  have hca : FastConvolver.convAt ir (x1 ++ x2) ((x1 ++ x2).length + i) =
      FastConvolver.convAt ir x1 (x1.length + (x2.length + i)) +
        FastConvolver.convAt ir x2 (x2.length + i) := by
    rw [List.length_append, Nat.add_assoc]
    exact convAt_append ir x1 x2 (x2.length + i)
  rw [hca, List.length_append]
  by_cases h2 : x2.length + i < ir.length - 1
  · rw [if_pos h2, bufSpec_getD _ _ _ _ h2,
      (by omega : x1.length + (x2.length + i) = x1.length + x2.length + i)]
    ring
  · rw [if_neg h2,
      if_neg (by omega : ¬ x1.length + x2.length + i < ir.length - 1),
      convAt_eq_zero_of_ge ir x1 (x1.length + (x2.length + i)) (by omega)]
    ring

end MergeLemmas

section RunBlocksLemmas

variable {α : Type} [CommRing α]

theorem process_td_ok (c : FastConvolver α) (x : List α)
    (hm : c.mode = ConvolutionMode.TimeDomain)
    (hL : c.impulse_response ≠ []) (hx : x ≠ [])
    (hb : c.impulse_response.length - 1 ≤ c.buffer.length) :
    FastConvolver.process c x x.length =
      Except.ok (FastConvolver.outSpec c.impulse_response c.buffer x,
        { c with buffer := FastConvolver.bufSpec c.impulse_response c.buffer x }) := by
  have hstep : FastConvolver.process c x x.length =
      FastConvolver.time_domain_process c x x.length := by
    rw [FastConvolver.process, hm]
  rw [hstep]
  exact tdp_ok c x x.length (fun h => hL (List.length_eq_zero.mp h)) hx hb (le_refl _)

theorem flatten_ne_nil {β : Type} (bs : List (List β)) (h0 : bs ≠ [])
    (h1 : ∀ bl ∈ bs, bl ≠ []) : bs.flatten ≠ [] := by
  cases bs with
  | nil => exact absurd rfl h0
  | cons y t =>
    have hy : y ≠ [] := h1 y (List.mem_cons_self _ _)
    rw [List.flatten_cons]
    intro hc
    exact hy (List.append_eq_nil.mp hc).1

theorem runBlocks_join (blocks : List (List α)) :
    ∀ (c : FastConvolver α), c.mode = ConvolutionMode.TimeDomain →
      c.impulse_response ≠ [] →
      c.impulse_response.length - 1 ≤ c.buffer.length →
      blocks ≠ [] → (∀ bl ∈ blocks, bl ≠ []) →
      FastConvolver.runBlocks c blocks = FastConvolver.runBlocks c [blocks.flatten] := by
  induction blocks with
  | nil => intro c _ _ _ h0 _; exact absurd rfl h0
  | cons x bs ih =>
    intro c hm hL hb _ hall
    have hx : x ≠ [] := hall x (List.mem_cons_self _ _)
    by_cases hbs : bs = []
    · subst hbs
      simp [List.flatten]
    · have hallbs : ∀ bl ∈ bs, bl ≠ [] := fun bl hbl => hall bl (List.mem_cons_of_mem x hbl)
      have hJ : bs.flatten ≠ [] := flatten_ne_nil bs hbs hallbs
      have hpx := process_td_ok c x hm hL hx hb
      -- state after the first block
      have hm1 : ({ c with buffer := FastConvolver.bufSpec c.impulse_response c.buffer x } :
          FastConvolver α).mode = ConvolutionMode.TimeDomain := hm
      have hb1 : ({ c with buffer := FastConvolver.bufSpec c.impulse_response c.buffer x } :
          FastConvolver α).impulse_response.length - 1 ≤
          ({ c with buffer := FastConvolver.bufSpec c.impulse_response c.buffer x } :
            FastConvolver α).buffer.length := bufSpec_length_ge _ _ _
      have hih := ih { c with buffer := FastConvolver.bufSpec c.impulse_response c.buffer x }
        hm1 hL hb1 hbs hallbs
      have hpJ := process_td_ok
        { c with buffer := FastConvolver.bufSpec c.impulse_response c.buffer x }
        bs.flatten hm1 hL hJ hb1
      have hpxJ := process_td_ok c (x ++ bs.flatten) hm hL (by simp [hx]) hb
      rw [List.flatten_cons]
      show FastConvolver.runBlocks c (x :: bs) = FastConvolver.runBlocks c [x ++ bs.flatten]
      simp only [FastConvolver.runBlocks, hpx, hpxJ]
      rw [hih]
      simp only [FastConvolver.runBlocks, hpJ]
      simp only [outSpec_append, bufSpec_append]
      simp
end RunBlocksLemmas

section FreqLemmas

variable {α : Type} [CommRing α]

theorem foldl_set_length (l : List ℕ) (h : ℕ → ℕ) (v : ℕ → α) :
    ∀ (ov : List α),
      (l.foldl (fun o j => o.set (h j) (o.getD (h j) 0 + v j)) ov).length = ov.length := by
  induction l with
  | nil => intro ov; rfl
  | cons j t ih =>
    intro ov
    rw [List.foldl_cons, ih, List.length_set]

theorem accumChunk_length (n : ℕ) (irb : List (List (GaussQ α))) (i : ℕ)
    (chunk : List α) (ov : List α) :
    (FastConvolver.accumChunk n irb i chunk ov).length = ov.length := by
  rw [FastConvolver.accumChunk]
  exact foldl_set_length (List.range n) _ _ ov

theorem foldl_accumChunk_length (n : ℕ) (irb : List (List (GaussQ α)))
    (l : List (ℕ × List α)) :
    ∀ (ov : List α),
      (l.foldl (fun ov p => FastConvolver.accumChunk n irb p.1 p.2 ov) ov).length =
        ov.length := by
  induction l with
  | nil => intro ov; rfl
  | cons p t ih =>
    intro ov
    rw [List.foldl_cons, ih, accumChunk_length]

theorem freqOverlapAfter_length (c : FastConvolver α) (x : List α) :
    (FastConvolver.freqOverlapAfter c x).length = c.overlap_buffer.length := by
  rw [FastConvolver.freqOverlapAfter, foldl_accumChunk_length, List.length_replicate]

end FreqLemmas

/-! ### Claim theorems -/

/-- C1: the streaming-convolution contract fails in frequency-domain mode.
With the configuration of the repository's own test
`test_frequency_domain_convolver_basic` (impulse response `[1,1,1,1]`,
`FrequencyDomain { block_size: 4 }`), the test's 16-sample all-ones input
panics (slice `overlap_buffer[..16]` out of range, modelled `okB = false`),
and the 8-sample all-ones input completes but returns
`[16,16,16,16,0,0,0,0]` -- the unnormalized circular convolution of the
first chunk only, with the later impulse partition blocks never applied --
instead of the causal convolution `[1,2,3,4,4,4,4,4]` demanded by the
contract (the same `convAt` values the time-domain path produces). -/
theorem C1_freq_contract_violated :
    FastConvolver.new ([1, 1, 1, 1] : List ℤ) (ConvolutionMode.FrequencyDomain 4) =
      some fdEngine4 ∧
    okB (FastConvolver.process fdEngine4 (List.replicate 16 1) 16) = false ∧
    okOut (FastConvolver.process fdEngine4 (List.replicate 8 1) 8) =
      some [16, 16, 16, 16, 0, 0, 0, 0] ∧
    (List.range 8).map (FastConvolver.convAt ([1, 1, 1, 1] : List ℤ) (List.replicate 8 1)) =
      [1, 2, 3, 4, 4, 4, 4, 4] ∧
    ([16, 16, 16, 16, 0, 0, 0, 0] : List ℤ) ≠ [1, 2, 3, 4, 4, 4, 4, 4] := by
  refine ⟨by decide, by decide, by decide, by decide, by decide⟩

/-- C2: `new` does not behave as claimed.  Construction with
`ConvolutionMode::TimeDomain` panics for every impulse response (the `match`
in `new` treats every non-`FrequencyDomain` mode as an error), contradicting
the repository's own time-domain tests, and construction with an empty
impulse response in frequency-domain mode succeeds rather than failing. -/
theorem C2_new_behavior :
    FastConvolver.new ([1, 1, 1, 1] : List ℤ) ConvolutionMode.TimeDomain = none ∧
    (FastConvolver.new ([] : List ℤ) (ConvolutionMode.FrequencyDomain 4)).isSome = true := by
  refine ⟨by decide, by decide⟩

/-- C4: the concrete time-domain scenario.  The scenario's own constructor
call panics (`new` returns `none` for `TimeDomain`), so the scenario cannot
run in the program as written; but the `process`/`flush` algorithm itself,
started from the spec-prescribed zeroed length-3 carryover (`tdEngine`),
produces exactly the claimed 19 samples, both for the single 16-sample call
and for the four 4-sample blocks. -/
theorem C4_time_domain_scenario :
    FastConvolver.new ([1, 1, 1, 1] : List ℤ) ConvolutionMode.TimeDomain = none ∧
    thenFlush (FastConvolver.process tdEngine (List.replicate 16 1) 16) [0, 0, 0] =
      some [1, 2, 3, 4, 4, 4, 4, 4, 4, 4, 4, 4, 4, 4, 4, 4, 3, 2, 1] ∧
    thenFlush (runBlocks tdEngine
        [List.replicate 4 1, List.replicate 4 1, List.replicate 4 1, List.replicate 4 1])
      [0, 0, 0] =
      some [1, 2, 3, 4, 4, 4, 4, 4, 4, 4, 4, 4, 4, 4, 4, 4, 3, 2, 1] := by
  refine ⟨by decide, by decide, by decide⟩

/-- C6: `reset` clears the carryover store to length 0 instead of zeroing it
in place, so it does not restore fresh-engine behavior: on the engine built
by `new [1,1] (FrequencyDomain 1)` a fresh `flush` into a length-1 buffer
succeeds and writes `[0]`, while after `reset` the same `flush` panics
(reads `buffer[0]` of an empty vector). -/
theorem C6_reset_breaks_engine :
    FastConvolver.new ([1, 1] : List ℤ) (ConvolutionMode.FrequencyDomain 1) = some fdEngine1 ∧
    (FastConvolver.reset fdEngine1).buffer = [] ∧
    okB (FastConvolver.flush (FastConvolver.reset fdEngine1) [0]) = false ∧
    FastConvolver.flush fdEngine1 [0] = Except.ok ([0], fdEngine1) := by
  refine ⟨by decide, by decide, by decide, by decide⟩

/-- C5 counterexample: `flush` does not require `len(output) == L - 1`.  On
the engine built by `new [1,1] (FrequencyDomain 1)` (so `L - 1 = 1`), a
3-sample output buffer is accepted: `flush` succeeds, writes the single
carryover sample into position 0 and leaves the rest of the buffer
untouched. -/
theorem C5_counterexample :
    FastConvolver.flush fdEngine1 [7, 8, 9] = Except.ok ([0, 8, 9], fdEngine1) ∧
    ([7, 8, 9] : List ℤ).length ≠ fdEngine1.impulse_response.length - 1 := by
  refine ⟨by decide, by decide⟩

/-- C7 counterexample: the carryover store is not allocated with length
`L - 1`.  `new [1,1,1] (FrequencyDomain 4)` allocates `buffer` with length
`block_size = 4`, not `L - 1 = 2`; and `reset` changes its length to 0. -/
theorem C7_counterexample :
    Option.map (fun c => c.buffer.length)
      (FastConvolver.new ([1, 1, 1] : List ℤ) (ConvolutionMode.FrequencyDomain 4)) =
      some 4 ∧
    ¬ (4 = ([1, 1, 1] : List ℤ).length - 1) ∧
    Option.map (fun c => (FastConvolver.reset c).buffer.length)
      (FastConvolver.new ([1, 1, 1] : List ℤ) (ConvolutionMode.FrequencyDomain 4)) =
      some 0 := by
  refine ⟨by decide, by decide, by decide⟩

/-- C8 counterexample: a length-mismatch failure in frequency-domain mode is
not surfaced before state mutation.  Calling `process` on the engine built by
`new [1,1] (FrequencyDomain 1)` with a 1-sample input and a 0-sample output
panics at `copy_from_slice`, but only after the overlap accumulator has been
cleared and accumulated into: the state at the panic (`fdEngine1Mut`) carries
`overlap_buffer = [1, 0]`, different from the engine's `[0, 0]` before the
call. -/
theorem C8_counterexample :
    FastConvolver.process fdEngine1 [1] 0 = Except.error fdEngine1Mut ∧
    fdEngine1Mut.overlap_buffer ≠ fdEngine1.overlap_buffer := by
  refine ⟨by decide, by decide⟩

/-- C3: block-size invariance.  In time-domain mode it holds in full
generality: over any commutative ring of sample values, for any engine state
whose carryover holds at least `L - 1` samples (in particular the
spec-prescribed zeroed state) and any partition of the input into nonempty
consecutive blocks, feeding the blocks through `process` in order produces
the same outputs and the same final state -- hence also the same subsequent
`flush` -- as one call on the whole input.  In frequency-domain mode the
claim fails on the code: on the engine built by
`new [1,2] (FrequencyDomain 1)`, the input `[0,1]` split as `[0]`,`[1]`
followed by a flush yields `[0,1,0]` while the single call yields `[0,2,0]`
(each call clears the overlap accumulator and restarts the partition
pairing at chunk index 0). -/
theorem C3_block_invariance :
    (∀ (α : Type) [CommRing α] (c : FastConvolver α) (blocks : List (List α)),
      c.mode = ConvolutionMode.TimeDomain →
      c.impulse_response ≠ [] →
      c.impulse_response.length - 1 ≤ c.buffer.length →
      blocks ≠ [] → (∀ bl ∈ blocks, bl ≠ []) →
      runBlocks c blocks = runBlocks c [blocks.flatten] ∧
        ∀ outF : List α, thenFlush (runBlocks c blocks) outF =
          thenFlush (runBlocks c [blocks.flatten]) outF) ∧
    thenFlush (runBlocks fdEngine2 [[0], [1]]) [0] = some [0, 1, 0] ∧
    thenFlush (runBlocks fdEngine2 [[0, 1]]) [0] = some [0, 2, 0] ∧
    ([0, 1, 0] : List ℤ) ≠ [0, 2, 0] := by
  refine ⟨?_, by decide, by decide, by decide⟩
  intro α _ c blocks hm hL hb h0 hall
  have h := runBlocks_join blocks c hm hL hb h0 hall
  exact ⟨h, fun outF => by rw [h]⟩

/-- C3 witness: the general time-domain invariance applied to the concrete
engine `tdEngine` (impulse response `[1,1,1,1]`, zeroed length-3 carryover)
and the partition `[1]`,`[1,1]` of the input `[1,1,1]`. -/
theorem C3_block_invariance_witness :
    runBlocks tdEngine [[1], [1, 1]] = runBlocks tdEngine [[1, 1, 1]] := by
  have h := (C3_block_invariance.1 ℤ tdEngine [[1], [1, 1]]
    rfl (by decide) (by decide) (by decide) (by decide)).1
  exact h

/-- C5 amended: `flush` writes exactly the first `L - 1` carryover samples
into `output[0..L-1]` whenever the output holds at least `L - 1` samples and
the carryover holds at least `L - 1` samples, leaving `output[L-1..]`
untouched (so the emitted tail has exactly `L - 1` samples and the total
stream length is `input_length + L - 1`); an oversized output buffer is
accepted, and an undersized one panics on out-of-bounds indexing instead of
being reported as an error (the function has no error return). -/
theorem C5_flush_amended :
    ∀ (α : Type) [CommRing α] (c : FastConvolver α) (out : List α),
      1 ≤ c.impulse_response.length →
      c.impulse_response.length - 1 ≤ c.buffer.length →
      ((c.impulse_response.length - 1 ≤ out.length →
        FastConvolver.flush c out =
          Except.ok (c.buffer.take (c.impulse_response.length - 1) ++
            out.drop (c.impulse_response.length - 1), c)) ∧
      (out.length < c.impulse_response.length - 1 →
        okB (FastConvolver.flush c out) = false)) := by
  intro α _ c out hL hb
  constructor
  · intro hout
    rw [FastConvolver.flush, if_neg (by omega), if_neg (by omega)]
  · intro hout
    rw [FastConvolver.flush, if_neg (by omega), if_pos (Or.inl hout)]
    rfl

/-- C5 witness: the amended statement evaluated on the engine built by
`new [1,1] (FrequencyDomain 1)` with an oversized and an undersized output
buffer. -/
theorem C5_flush_amended_witness :
    FastConvolver.flush fdEngine1 [4, 5, 6] = Except.ok ([0, 5, 6], fdEngine1) ∧
    okB (FastConvolver.flush fdEngine1 ([] : List ℤ)) = false := by
  refine ⟨?_, ?_⟩
  · exact (C5_flush_amended ℤ fdEngine1 [4, 5, 6] (by decide) (by decide)).1 (by decide)
  · exact (C5_flush_amended ℤ fdEngine1 [] (by decide) (by decide)).2 (by decide)

/-- C7 amended: the carryover store is allocated at construction (possible
only in frequency-domain mode) as a zero-initialized buffer of length
`block_size`, not `L - 1`; its length is preserved by every successful
`process` and `flush` call, but `reset` truncates it to length 0. -/
theorem C7_buffer_amended :
    (∀ (α : Type) [CommRing α] (ir : List α) (bs : ℕ) (c : FastConvolver α),
      FastConvolver.new ir (ConvolutionMode.FrequencyDomain bs) = some c →
      c.buffer = List.replicate bs 0) ∧
    (∀ (α : Type) [CommRing α] (c : FastConvolver α) (x : List α) (k : ℕ)
      (o : List α) (c2 : FastConvolver α),
      FastConvolver.process c x k = Except.ok (o, c2) →
      c2.buffer.length = c.buffer.length) ∧
    (∀ (α : Type) [CommRing α] (c : FastConvolver α) (out o : List α)
      (c2 : FastConvolver α),
      FastConvolver.flush c out = Except.ok (o, c2) → c2.buffer = c.buffer) ∧
    (∀ (α : Type) [CommRing α] (c : FastConvolver α),
      (FastConvolver.reset c).buffer.length = 0) := by
  refine ⟨?_, ?_, ?_, ?_⟩
  · intro α _ ir bs c h
    simp only [FastConvolver.new] at h
    by_cases hbs : bs = 0
    · rw [if_pos hbs] at h
      exact absurd h (by simp)
    · rw [if_neg hbs] at h
      injection h with h2
      rw [← h2]
  · intro α _ c x k o c2 h
    cases hm : c.mode with
    | TimeDomain =>
      simp only [FastConvolver.process, hm] at h
      simp only [FastConvolver.time_domain_process] at h
      split_ifs at h with h1 h2 h3 h4
      injection h with hpair
      injection hpair with ho hc
      rw [← hc]
      simp only [List.length_append, List.length_map, List.length_range, List.length_drop]
      omega
    | FrequencyDomain bs =>
      simp only [FastConvolver.process, hm] at h
      simp only [FastConvolver.frequency_domain_process] at h
      split_ifs at h with h1 h2 h3 h4
      injection h with hpair
      injection hpair with ho hc
      rw [← hc]
  · intro α _ c out o c2 h
    rw [FastConvolver.flush] at h
    split_ifs at h with h1 h2
    injection h with hpair
    injection hpair with ho hc
    rw [← hc]
  · intro α _ c
    rfl

/-- C7 witness: the amended statement evaluated on the engine built by
`new [1,1] (FrequencyDomain 1)`: its carryover is the zeroed length-1
(= block_size) buffer, a successful frequency-domain `process` and a
successful `flush` preserve it, and `reset` empties it. -/
theorem C7_buffer_amended_witness :
    fdEngine1.buffer = List.replicate 1 (0 : ℤ) ∧
    fdEngine1Mut.buffer.length = fdEngine1.buffer.length ∧
    fdEngine1.buffer = fdEngine1.buffer ∧
    (FastConvolver.reset fdEngine1).buffer.length = 0 := by
  refine ⟨?_, ?_, ?_, ?_⟩
  · exact C7_buffer_amended.1 ℤ [1, 1] 1 fdEngine1 (by decide)
  · exact C7_buffer_amended.2.1 ℤ fdEngine1 [1] 1 [1] fdEngine1Mut (by decide)
  · exact C7_buffer_amended.2.2.1 ℤ fdEngine1 [5, 6] [0, 6] fdEngine1 (by decide)
  · exact C7_buffer_amended.2.2.2 ℤ fdEngine1

/-- C8 amended: no argument-length validation is performed; mismatches panic
instead of returning an error.  In time-domain mode and in `flush` every
panic happens before the carryover is written, so the state at the panic is
the entry state; but in frequency-domain mode the overlap accumulator is
cleared and fully accumulated before the length check at `copy_from_slice`,
so a failed call carries the mutated accumulator (the claim's
"no state mutation before the error" fails there). -/
theorem C8_error_amended :
    (∀ (α : Type) [CommRing α] (c : FastConvolver α) (x : List α) (k : ℕ)
      (e : FastConvolver α), c.mode = ConvolutionMode.TimeDomain →
      FastConvolver.process c x k = Except.error e → e = c) ∧
    (∀ (α : Type) [CommRing α] (c : FastConvolver α) (out : List α)
      (e : FastConvolver α),
      FastConvolver.flush c out = Except.error e → e = c) ∧
    (∀ (α : Type) [CommRing α] (c : FastConvolver α) (x : List α) (k : ℕ) (bs : ℕ),
      c.mode = ConvolutionMode.FrequencyDomain bs → c.block_size ≠ 0 →
      x.length ≤ c.overlap_buffer.length → k ≠ x.length →
      FastConvolver.process c x k =
        Except.error { c with overlap_buffer := FastConvolver.freqOverlapAfter c x }) := by
  refine ⟨?_, ?_, ?_⟩
  · intro α _ c x k e hm h
    simp only [FastConvolver.process, hm] at h
    simp only [FastConvolver.time_domain_process] at h
    split_ifs at h with h1 h2 h3 h4 <;> injection h with hh <;> exact hh.symm
  · intro α _ c out e h
    rw [FastConvolver.flush] at h
    split_ifs at h with h1 h2 <;> injection h with hh <;> exact hh.symm
  · intro α _ c x k bs hm hbs hov hk
    simp only [FastConvolver.process, hm]
    rw [FastConvolver.frequency_domain_process, if_neg hbs,
      if_neg (by omega : ¬(c.overlap_buffer.length = 0 ∧ x.length ≠ 0))]
    simp only []
    rw [if_neg (by omega), if_pos hk, hm]

/-- C8 witness: the amended statement evaluated concretely: a time-domain
panic (empty input) returns the entry state unchanged, a `flush` panic
(carryover emptied by `reset`) returns the entry state unchanged, and the
frequency-domain length-mismatch panic carries the freshly accumulated
overlap buffer. -/
theorem C8_error_amended_witness :
    tdEngine = tdEngine ∧
    FastConvolver.reset fdEngine1 = FastConvolver.reset fdEngine1 ∧
    FastConvolver.process fdEngine1 [1] 0 =
      Except.error { fdEngine1 with
        overlap_buffer := FastConvolver.freqOverlapAfter fdEngine1 [1] } := by
  refine ⟨?_, ?_, ?_⟩
  · exact C8_error_amended.1 ℤ tdEngine [] 0 tdEngine rfl (by decide)
  · exact C8_error_amended.2.1 ℤ (FastConvolver.reset fdEngine1) [0]
      (FastConvolver.reset fdEngine1) (by decide)
  · exact C8_error_amended.2.2 ℤ fdEngine1 [1] 0 1 rfl (by decide) (by decide) (by decide)

/-- C9: in frequency-domain mode, on any engine built by `new`, a `process`
call whose input is longer than `2 * block_size` panics (the final
`copy_from_slice(&overlap_buffer[..input.len()])` slices the length-
`2*block_size` overlap buffer out of range) even when the output length
matches the input length; and every call with matching lengths and
`input.len() <= 2 * block_size` completes. -/
theorem C9_freq_input_length_limit :
    ∀ (α : Type) [CommRing α] (ir : List α) (bs : ℕ) (c : FastConvolver α)
      (x : List α),
      FastConvolver.new ir (ConvolutionMode.FrequencyDomain bs) = some c →
      ((2 * bs < x.length → okB (FastConvolver.process c x x.length) = false) ∧
       (x.length ≤ 2 * bs → okB (FastConvolver.process c x x.length) = true)) := by
  intro α _ ir bs c x h
  simp only [FastConvolver.new] at h
  by_cases hbs : bs = 0
  · rw [if_pos hbs] at h
    exact absurd h (by simp)
  · rw [if_neg hbs] at h
    injection h with h2
    subst h2
    simp only [FastConvolver.process, FastConvolver.frequency_domain_process,
      List.length_replicate]
    rw [if_neg hbs, if_neg (by omega : ¬(2 * bs = 0 ∧ x.length ≠ 0))]
    constructor
    · intro hlong
      rw [if_pos hlong]
      rfl
    · intro hshort
      rw [if_neg (by omega), if_neg (by omega : ¬(x.length ≠ x.length))]
      rfl

/-- C9 witness: on the engine built by `new [1,1] (FrequencyDomain 1)`
(overlap buffer length 2), a 3-sample call panics and a 1-sample call
completes. -/
theorem C9_freq_input_length_limit_witness :
    okB (FastConvolver.process fdEngine1 [1, 1, 1] 3) = false ∧
    okB (FastConvolver.process fdEngine1 [1] 1) = true := by
  refine ⟨?_, ?_⟩
  · exact (C9_freq_input_length_limit ℤ [1, 1] 1 fdEngine1 [1, 1, 1] (by decide)).1
      (by decide)
  · exact (C9_freq_input_length_limit ℤ [1, 1] 1 fdEngine1 [1] (by decide)).2
      (by decide)

/-- C10: `flush` is read-only on the engine.  Every successful `flush`
returns the state unchanged, and an immediate second `flush` into the buffer
just written produces exactly the same samples and the same (unchanged)
state. -/
theorem C10_flush_pure :
    ∀ (α : Type) [CommRing α] (c : FastConvolver α) (out o : List α)
      (c2 : FastConvolver α),
      FastConvolver.flush c out = Except.ok (o, c2) →
      c2 = c ∧ FastConvolver.flush c o = Except.ok (o, c) := by
  intro α _ c out o c2 h
  rw [FastConvolver.flush] at h
  by_cases h1 : c.impulse_response.length = 0
  · rw [if_pos h1] at h
    exact absurd h (by simp)
  · rw [if_neg h1] at h
    by_cases h2 : out.length < c.impulse_response.length - 1 ∨
        c.buffer.length < c.impulse_response.length - 1
    · rw [if_pos h2] at h
      exact absurd h (by simp)
    · rw [if_neg h2] at h
      push_neg at h2
      obtain ⟨h2a, h2b⟩ := h2
      injection h with hpair
      injection hpair with ho hc
      subst hc
      refine ⟨rfl, ?_⟩
      subst ho
      have hlen1 : (c.buffer.take (c.impulse_response.length - 1)).length =
          c.impulse_response.length - 1 := by
        rw [List.length_take]
        omega
      have hlen : (c.buffer.take (c.impulse_response.length - 1) ++
          out.drop (c.impulse_response.length - 1)).length = out.length := by
        rw [List.length_append, List.length_take, List.length_drop]
        omega
      rw [FastConvolver.flush, if_neg h1, if_neg (by rw [hlen]; omega),
        List.drop_left' hlen1]

/-- C10 witness: on the engine built by `new [1,1] (FrequencyDomain 1)`, a
successful flush into `[5,6]` yields `[0,6]` with the state unchanged, and
flushing again into `[0,6]` reproduces `[0,6]`. -/
theorem C10_flush_pure_witness :
    fdEngine1 = fdEngine1 ∧
    FastConvolver.flush fdEngine1 [0, 6] = Except.ok ([0, 6], fdEngine1) := by
  exact C10_flush_pure ℤ fdEngine1 [5, 6] [0, 6] fdEngine1 (by decide)
